import Mathlib

/-!
Verification of the tppcnomics-analytics rating/matchup engine.

Each definition below is a shallow embedding of a function of the
repository, translated from the TypeScript source:

* `src/lib/elo.ts` — the single-side and team Elo updates;
* `src/lib/pair-key.ts` — canonical pair keys for matchups;
* `src/lib/marketpoll-seeds.ts` — the seed-range grammar and tier table;
* `src/lib/matchup-picker.ts` — the weighted bucket choice;
* `src/lib/voter.ts` — voter streak/XP progression;
* `src/lib/tx-retry.ts` and `src/app/api/votes/route.ts` — the vote
  transaction and its (absent) retry wrapper.

Modelling conventions: JavaScript numbers are modelled exactly — vote
counts, thresholds and seed amounts as rationals (`ℚ`), ratings as reals
(`ℝ`, since the Elo formulas use `10^x`, `sqrt` and `log10`).  `toFixed(4)`
is modelled as exact rounding to 4 decimal places (ties toward +∞, as the
ECMAScript `toFixed` specification picks the larger candidate).  UTC
instants are modelled by their civil day index (an integer), which is the
only part of a `Date` that `computeStreakAndXp` inspects.
-/

namespace Tppcnomics

/-! ### Rating engine: `src/lib/elo.ts` -/

/-- The `EloResult` from `elo.ts`: which side the vote tally favours. -/
inductive EloResult where
  | left
  | right
  | tie
deriving DecidableEq, Repr

/-- The `EloUpdate` from `elo.ts`. -/
structure EloUpdate where
  leftScore : ℝ
  rightScore : ℝ
  totalVotes : ℚ
  result : EloResult
  affectsScore : Bool
  kFactor : ℝ

/-- The `ApplyEloInput` from `elo.ts`; `minVotes` is explicit (the source
defaults it to 1, and every caller either omits it or passes 1). -/
structure ApplyEloInput where
  leftScore : ℝ
  rightScore : ℝ
  votesLeft : ℚ
  votesRight : ℚ
  minVotes : ℚ

/-- The `BundleEloUpdate` from `elo.ts`. -/
structure BundleEloUpdate where
  leftScore : ℝ
  rightScore : ℝ
  totalVotes : ℚ
  result : EloResult
  affectsScore : Bool
  kFactor : ℝ
  leftScores : List ℝ
  rightScores : List ℝ
  leftTeamScore : ℝ
  rightTeamScore : ℝ

/-- The `ApplyBundleEloInput` from `elo.ts`. -/
structure ApplyBundleEloInput where
  leftScores : List ℝ
  rightScores : List ℝ
  votesLeft : ℚ
  votesRight : ℚ
  minVotes : ℚ

/-- The `toFiniteScore` from `elo.ts` replaces non-finite numbers by 1500;
every real number is finite, so in the model it is the identity. -/
def toFiniteScore (score : ℝ) : ℝ := score

/-- The `Number(x.toFixed(4))`: round to 4 decimal places, ties toward +∞. -/
noncomputable def round4 (x : ℝ) : ℝ := (⌊x * 10000 + 1 / 2⌋ : ℤ) / 10000

/-- The `scoreToQ` from `elo.ts`: logistic mass `10^(r/400)` of a rating. -/
noncomputable def scoreToQ (score : ℝ) : ℝ :=
  (10 : ℝ) ^ (toFiniteScore score / 400)

/-- The `Math.max(0, Number(votes) || 0)` applied to each vote tally. -/
def clampVotes (v : ℚ) : ℚ := max 0 v

/-- The clamped total vote count computed by `applyEloFromVotes`. -/
def eloTotalVotes (i : ApplyEloInput) : ℚ :=
  clampVotes i.votesLeft + clampVotes i.votesRight

/-- The `Math.max(1, Number(minVotes) || 1)`: the effective vote threshold. -/
def eloMinVotes (i : ApplyEloInput) : ℚ := max 1 i.minVotes

/-- The `applyEloFromVotes` from `elo.ts`, lines 44–84. -/
noncomputable def applyEloFromVotes (i : ApplyEloInput) : EloUpdate :=
  let lScore := toFiniteScore i.leftScore
  let rScore := toFiniteScore i.rightScore
  let leftVotes := clampVotes i.votesLeft
  let rightVotes := clampVotes i.votesRight
  let totalVotes := leftVotes + rightVotes
  let result : EloResult :=
    if rightVotes < leftVotes then .left
    else if leftVotes < rightVotes then .right
    else .tie
  if totalVotes < eloMinVotes i then
    { leftScore := lScore, rightScore := rScore, totalVotes := totalVotes
      result := result, affectsScore := false, kFactor := 0 }
  else
    let expectedLeft : ℝ := 1 / (1 + (10 : ℝ) ^ ((rScore - lScore) / 400))
    let expectedRight : ℝ := 1 - expectedLeft
    let actualLeft : ℚ := leftVotes / totalVotes
    let actualRight : ℚ := rightVotes / totalVotes
    let kFactor : ℝ := 24 * min 2 (Real.sqrt ((totalVotes : ℝ) / 5))
    { leftScore := round4 (lScore + kFactor * ((actualLeft : ℝ) - expectedLeft))
      rightScore := round4 (rScore + kFactor * ((actualRight : ℝ) - expectedRight))
      totalVotes := totalVotes, result := result, affectsScore := true
      kFactor := kFactor }

/-- A bundle side as the engine uses it: member ratings made finite, an
empty side replaced by the default single rating `[1500]`
(`elo.ts` lines 93–97). -/
def bundleSideList (scores : List ℝ) : List ℝ :=
  let safe := scores.map toFiniteScore
  if safe.isEmpty then [1500] else safe

/-- The summed logistic mass `Σq` of one side (`elo.ts` lines 99–102). -/
noncomputable def bundleQSum (scores : List ℝ) : ℝ :=
  ((bundleSideList scores).map scoreToQ).sum

/-- The team rating `400 × log10(Σq)` of one side (`elo.ts` lines 104–105). -/
noncomputable def bundleTeamScore (scores : List ℝ) : ℝ :=
  400 * Real.logb 10 (bundleQSum scores)

/-- The single-side update run between the two team ratings
(`elo.ts` lines 107–113). -/
noncomputable def bundleTeamUpdate (i : ApplyBundleEloInput) : EloUpdate :=
  applyEloFromVotes
    { leftScore := bundleTeamScore i.leftScores
      rightScore := bundleTeamScore i.rightScores
      votesLeft := i.votesLeft, votesRight := i.votesRight
      minVotes := i.minVotes }

/-- The `applyEloFromVotesBundles` from `elo.ts`, lines 86–142. -/
noncomputable def applyEloFromVotesBundles (i : ApplyBundleEloInput) : BundleEloUpdate :=
  let leftList := bundleSideList i.leftScores
  let rightList := bundleSideList i.rightScores
  let leftQ := leftList.map scoreToQ
  let rightQ := rightList.map scoreToQ
  let leftQSum := leftQ.sum
  let rightQSum := rightQ.sum
  let leftTeamScore := 400 * Real.logb 10 leftQSum
  let rightTeamScore := 400 * Real.logb 10 rightQSum
  let team := bundleTeamUpdate i
  if team.affectsScore = false then
    { leftScore := team.leftScore, rightScore := team.rightScore
      totalVotes := team.totalVotes, result := team.result
      affectsScore := team.affectsScore, kFactor := team.kFactor
      leftScores := leftList, rightScores := rightList
      leftTeamScore := round4 leftTeamScore
      rightTeamScore := round4 rightTeamScore }
  else
    let leftTeamDelta := team.leftScore - leftTeamScore
    let rightTeamDelta := team.rightScore - rightTeamScore
    let nextLeft :=
      List.zipWith (fun score q => round4 (score + leftTeamDelta * (q / leftQSum)))
        leftList leftQ
    let nextRight :=
      List.zipWith (fun score q => round4 (score + rightTeamDelta * (q / rightQSum)))
        rightList rightQ
    { leftScore := team.leftScore, rightScore := team.rightScore
      totalVotes := team.totalVotes, result := team.result
      affectsScore := team.affectsScore, kFactor := team.kFactor
      leftScores := nextLeft, rightScores := nextRight
      leftTeamScore := round4 leftTeamScore
      rightTeamScore := round4 rightTeamScore }

/-! ### Canonical pair keys: `src/lib/pair-key.ts`

`Array.prototype.sort((a, b) => a.localeCompare(b))` is modelled by the
code-point linear order on strings: on the repository's ASCII asset keys
the default-locale collation is a strict total order, which is all the
canonicality argument uses.  Spreading a JS `Set` keeps first-insertion
order, modelled by `dedupFirst`. -/

/-- The `[...new Set(list)]`: drop duplicates, keeping first occurrences. -/
def dedupFirst : List String → List String
  | [] => []
  | x :: xs => x :: dedupFirst (xs.filter (fun y => y != x))
termination_by l => l.length
decreasing_by
  simp only [List.length_cons]
  exact Nat.lt_succ_of_le (List.length_filter_le _ _)

/-- The member-key list inside `toBundleKey` (`pair-key.ts` lines 1–6):
trim each entry, drop empties, dedup, sort. -/
def toBundleKeyList (l : List String) : List String :=
  List.insertionSort (· ≤ ·)
    (dedupFirst ((l.map String.trim).filter (fun s => s != "")))

/-- The `toBundleKey` from `pair-key.ts`. -/
def toBundleKey (l : List String) : String :=
  String.intercalate " + " (toBundleKeyList l)

/-- The `canonicalPairKey` from `pair-key.ts`, lines 30–34: sort the two
bundle keys and join them with `"::"`. -/
def canonicalPairKey (a b : List String) : String :=
  let left := toBundleKey a
  let right := toBundleKey b
  if right < left then right ++ "::" ++ left else left ++ "::" ++ right

/-! ### Gold-market tier table: `src/lib/marketpoll-seeds.ts` lines 14–26
and 166–176.  `Number.POSITIVE_INFINITY` on the last tier's upper bound is
modelled by `⊤` in `WithTop ℚ`. -/

/-- One row of `GOLDMARKET_TIERS`. -/
structure GoldmarketTier where
  id : String
  tmin : ℚ
  tmax : WithTop ℚ

/-- The `GOLDMARKET_TIERS` from `marketpoll-seeds.ts`. -/
def GOLDMARKET_TIERS : List GoldmarketTier :=
  [⟨"1-5kx", 1000, ((5000 : ℚ) : WithTop ℚ)⟩,
   ⟨"5-10kx", 5000, ((10000 : ℚ) : WithTop ℚ)⟩,
   ⟨"10-20kx", 10000, ((20000 : ℚ) : WithTop ℚ)⟩,
   ⟨"20-40kx", 20000, ((40000 : ℚ) : WithTop ℚ)⟩,
   ⟨"40-100kx", 40000, ((100000 : ℚ) : WithTop ℚ)⟩,
   ⟨"100-200kx", 100000, ((200000 : ℚ) : WithTop ℚ)⟩,
   ⟨"200-500kx", 200000, ((500000 : ℚ) : WithTop ℚ)⟩,
   ⟨"500-1000kx", 500000, ((1000000 : ℚ) : WithTop ℚ)⟩,
   ⟨"1mx-2mx", 1000000, ((2000000 : ℚ) : WithTop ℚ)⟩,
   ⟨"2mx-3mx", 2000000, ((3000000 : ℚ) : WithTop ℚ)⟩,
   ⟨"3mx+", 3000000, ⊤⟩]

/-- The scanning loop of `tierForMidX`: return the first tier whose
half-open interval `[tmin, tmax)` contains the midpoint (the source
`continue`s when `midX < tier.min` or `midX >= tier.max`). -/
def tierScan : List GoldmarketTier → ℕ → ℚ → Option (String × ℕ)
  | [], _, _ => none
  | t :: rest, i, midX =>
      if t.tmin ≤ midX ∧ (midX : WithTop ℚ) < t.tmax then some (t.id, i)
      else tierScan rest (i + 1) midX

/-- The `tierForMidX` from `marketpoll-seeds.ts`: scan the table, and if no
tier matched fall back to the last tier. -/
def tierForMidX (midX : ℚ) : String × ℕ :=
  match tierScan GOLDMARKET_TIERS 0 midX with
  | some r => r
  | none =>
      ((GOLDMARKET_TIERS.getLastD ⟨"", 0, ⊤⟩).id, GOLDMARKET_TIERS.length - 1)

/-! ### Seed range grammar: `marketpoll-seeds.ts` lines 178–265.

`parseRateToken` matches the normalised token against the regular
expression `^(\d+(?:\.\d+)?)\s*([a-z]*)$`; `lexRate` implements that
match directly: a digit run, an optional fraction (a dot must be followed
by at least one digit, else the whole match fails because the dot can be
consumed by nothing), optional whitespace, then a run of lowercase ASCII
letters reaching the end of the token.  The decimal amount is modelled
exactly as a rational. -/

/-- The `String.prototype.trim`: drop whitespace from both ends (written
over the character list so that it evaluates by kernel reduction). -/
def jsTrim (s : String) : String :=
  ⟨((s.data.dropWhile Char.isWhitespace).reverse.dropWhile Char.isWhitespace).reverse⟩

/-- The `String.prototype.toLowerCase` (ASCII, which covers seed tokens). -/
def jsToLowerCase (s : String) : String :=
  ⟨s.data.map Char.toLower⟩

/-- The `.replace(/\+$/, "")`: strip one trailing `'+'` if present. -/
def stripTrailingPlus (s : String) : String :=
  match s.data.getLast? with
  | some '+' => ⟨s.data.dropLast⟩
  | _ => s

/-- The `String.prototype.split("-")` on the character list. -/
def splitDashChars : List Char → List Char → List String
  | [], acc => [⟨acc.reverse⟩]
  | c :: cs, acc =>
      if c = '-' then ⟨acc.reverse⟩ :: splitDashChars cs []
      else splitDashChars cs (c :: acc)

/-- The `raw.split("-")`. -/
def jsSplitDash (s : String) : List String :=
  splitDashChars s.data []

/-- The decimal number denoted by a digit run. -/
def natOfDigits (cs : List Char) : ℕ :=
  cs.foldl (fun acc c => acc * 10 + (c.toNat - '0'.toNat)) 0

/-- The regex match: returns the amount and the (possibly empty) unit. -/
def lexRate (token : String) : Option (ℚ × String) :=
  let cs := token.data
  let intPart := cs.takeWhile Char.isDigit
  if intPart.isEmpty then none
  else
    let rest₁ := cs.drop intPart.length
    let fracState : Option (List Char × List Char) :=
      match rest₁ with
      | '.' :: cs₂ =>
          let frac := cs₂.takeWhile Char.isDigit
          if frac.isEmpty then none else some (frac, cs₂.drop frac.length)
      | _ => some ([], rest₁)
    match fracState with
    | none => none
    | some (frac, rest₂) =>
        let rest₃ := rest₂.dropWhile Char.isWhitespace
        let unit := rest₃.takeWhile Char.isLower
        if (rest₃.drop unit.length).isEmpty then
          some (mkRat (natOfDigits intPart * 10 ^ frac.length + natOfDigits frac)
            (10 ^ frac.length), String.mk unit)
        else none

/-- The `String(raw || "").trim().toLowerCase().replace(/\+$/, "")`. -/
def normalizeRateToken (raw : String) : String :=
  stripTrailingPlus (jsToLowerCase (jsTrim raw))

/-- The `RATE_MULTIPLIERS` from `marketpoll-seeds.ts`. -/
def RATE_MULTIPLIERS : List (String × ℚ) :=
  [("x", 1), ("k", 1000), ("kx", 1000), ("m", 1000000), ("mx", 1000000)]

/-- The `ParsedRateToken` from `marketpoll-seeds.ts`. -/
structure ParsedRateToken where
  ok : Bool
  valueX : Option ℚ
  multiplier : Option ℚ
  needsUnit : Bool
  errMsg : Option String
deriving Repr

/-- The `parseRateToken` from `marketpoll-seeds.ts`, lines 178–204.  A `none`
fallback multiplier models the `null` default (`null ?? NaN` is not
finite, producing `needsUnit`). -/
def parseRateToken (raw : String) (fallbackMultiplier : Option ℚ) : ParsedRateToken :=
  let token := normalizeRateToken raw
  match lexRate token with
  | none => ⟨false, none, none, false, some ("Invalid rate token: " ++ raw)⟩
  | some (amount, unitRaw) =>
      if amount < 0 then
        ⟨false, none, none, false, some ("Invalid numeric amount: " ++ raw)⟩
      else if unitRaw = "" then
        match fallbackMultiplier with
        | none => ⟨false, none, none, true, none⟩
        | some m => ⟨true, some (amount * m), some m, false, none⟩
      else
        match RATE_MULTIPLIERS.lookup unitRaw with
        | none => ⟨false, none, none, false, some ("Unknown unit in rate token: " ++ raw)⟩
        | some m => ⟨true, some (amount * m), some m, false, none⟩

/-- The result record of `parseSeedRange`. -/
structure SeedRangeResult where
  ok : Bool
  minX : Option ℚ
  maxX : Option ℚ
  midX : Option ℚ
  tierId : Option String
  tierIndex : Option ℕ
  errMsg : Option String
deriving Repr

/-- An error result of `parseSeedRange`. -/
def seedRangeErr (msg : String) : SeedRangeResult :=
  ⟨false, none, none, none, none, none, some msg⟩

/-- The `raw.split("-").map(trim).filter(Boolean)` from `parseSeedRange`. -/
def seedRangeParts (raw : String) : List String :=
  ((jsSplitDash raw).map jsTrim).filter (fun s => s != "")

/-- The body of `parseSeedRange` after splitting
(`marketpoll-seeds.ts` lines 223–264): a single part is min=max with
default multiplier 1; with two parts, a side that still `needsUnit` after
a unitless parse inherits the other side's multiplier, and if both sides
need a unit both default to multiplier 1. -/
def parseSeedRangeParts : List String → SeedRangeResult
  | [p] =>
      let single := parseRateToken p (some 1)
      match single.ok, single.valueX with
      | true, some v =>
          let tier := tierForMidX v
          ⟨true, some v, some v, some v, some tier.1, some tier.2, none⟩
      | _, _ =>
          seedRangeErr (single.errMsg.getD ("Invalid single-value range: " ++ p))
  | [p₁, p₂] =>
      let left₀ := parseRateToken p₁ none
      let right₀ := parseRateToken p₂ none
      if left₀.ok = false ∧ left₀.needsUnit = false then
        seedRangeErr (left₀.errMsg.getD ("Invalid range: " ++ p₁))
      else if right₀.ok = false ∧ right₀.needsUnit = false then
        seedRangeErr (right₀.errMsg.getD ("Invalid range: " ++ p₂))
      else
        let lr : ParsedRateToken × ParsedRateToken :=
          if left₀.needsUnit = true ∧ right₀.needsUnit = true then
            (parseRateToken p₁ (some 1), parseRateToken p₂ (some 1))
          else
            let left₁ := if left₀.needsUnit = true then
              parseRateToken p₁ right₀.multiplier else left₀
            let right₁ := if right₀.needsUnit = true then
              parseRateToken p₂ left₁.multiplier else right₀
            (left₁, right₁)
        match lr.1.ok, lr.2.ok, lr.1.valueX, lr.2.valueX with
        | true, true, some vmin, some vmax =>
            if vmin > vmax then seedRangeErr "Range min greater than max"
            else
              let mid := (vmin + vmax) / 2
              let tier := tierForMidX mid
              ⟨true, some vmin, some vmax, some mid, some tier.1, some tier.2, none⟩
        | _, _, _, _ => seedRangeErr "Could not parse range"
  | _ => seedRangeErr "Range must be single value or min-max"

/-- The `parseSeedRange` from `marketpoll-seeds.ts`, lines 206–265. -/
def parseSeedRange (rawRange : String) : SeedRangeResult :=
  let raw := jsTrim rawRange
  if raw = "" then seedRangeErr "Range cannot be empty."
  else parseSeedRangeParts (seedRangeParts raw)

/-! ### Weighted bucket choice: `src/lib/matchup-picker.ts` -/

/-- The two matchup buckets. -/
inductive MatchupBucket where
  | featured
  | normal
deriving DecidableEq, Repr

/-- The `Math.trunc` on a rational: round toward zero. -/
def ratTrunc (q : ℚ) : ℤ := if q < 0 then -⌊-q⌋ else ⌊q⌋

/-- The `pickWeightedBucket` from `matchup-picker.ts`.  The `rng` draw is
passed in as the rational it returned (`Number.isFinite` never fails on
it in the model); `Number(x) || d` maps `0` to `d`, which only matters
for the weight argument. -/
def pickWeightedBucket (featuredCountRaw normalCountRaw featuredWeightRaw rng : ℚ) :
    Option MatchupBucket :=
  let featuredCount : ℤ := max 0 (ratTrunc featuredCountRaw)
  let normalCount : ℤ := max 0 (ratTrunc normalCountRaw)
  let featuredWeight : ℤ :=
    max 1 (ratTrunc (if featuredWeightRaw = 0 then 1 else featuredWeightRaw))
  if featuredCount = 0 ∧ normalCount = 0 then none
  else if normalCount = 0 then some .featured
  else if featuredCount = 0 then some .normal
  else
    let weightedFeatured := featuredCount * featuredWeight
    let totalWeight := weightedFeatured + normalCount
    let clamped : ℚ := max 0 (min (999999999 / 1000000000 : ℚ) rng)
    let roll : ℤ := ⌊clamped * (totalWeight : ℚ)⌋
    if roll < weightedFeatured then some .featured else some .normal

/-! ### Voter progression: `src/lib/voter.ts`

`computeStreakAndXp` only ever looks at the UTC calendar day of a `Date`
(`toISOString().slice(0, 10)`), and `setUTCDate(getUTCDate() - 1)` moves
to the previous calendar day; instants are therefore modelled by their
UTC civil day index `ℤ`. -/

/-- The voter fields the route selects (`streakDays`, `lastVotedAt`,
`xp`, `totalVotes`); `lastVotedAt` is the day index of the last vote. -/
structure VoterSnapshot where
  streakDays : ℤ
  lastVotedAt : Option ℤ
  xp : ℤ
  totalVotes : ℤ
deriving DecidableEq, Repr

/-- The result record of `computeStreakAndXp`. -/
structure VoterProgression where
  streakDays : ℤ
  xpGain : ℤ
  nextXp : ℤ
  nextTotalVotes : ℤ
deriving DecidableEq, Repr

/-- The `computeStreakAndXp` from `voter.ts`. -/
def computeStreakAndXp (voter : Option VoterSnapshot) (nowDay : ℤ) : VoterProgression :=
  let today := nowDay
  let yesterday := nowDay - 1
  let streakDays : ℤ :=
    match voter with
    | none => 1
    | some v =>
        match v.lastVotedAt with
        | none => 1
        | some last =>
            if last = today then max 1 v.streakDays
            else if last = yesterday then max 1 (v.streakDays + 1)
            else 1
  let xpGain := 10 + min streakDays 7
  let nextXp := (match voter with | none => 0 | some v => v.xp) + xpGain
  let nextTotalVotes := (match voter with | none => 0 | some v => v.totalVotes) + 1
  ⟨streakDays, xpGain, nextXp, nextTotalVotes⟩

/-! ### The vote route's voter upsert: `src/app/api/votes/route.ts`
lines 122–142.  The route computes `progression` from a `voter` row read
*before* the transaction and then upserts absolute values: both the
`create` and the `update` branch write `xp: progression.nextXp` and
`totalVotes: progression.nextTotalVotes`, so the written row does not
depend on the row state inside the transaction. -/

/-- The voter row written by the route's `tx.voter.upsert`; both branches
write the same absolute values, so the existing row is ignored. -/
def routeVoterUpsert (_existing : Option VoterSnapshot) (p : VoterProgression)
    (now : ℤ) : VoterSnapshot :=
  ⟨p.streakDays, some now, p.nextXp, p.nextTotalVotes⟩

/-- Two concurrent votes by the same visitor, worst-case interleaving:
both requests read the same pre-transaction snapshot `db₀`, then their
transactions commit one after the other. -/
def routeTwoConcurrentVotes (db₀ : Option VoterSnapshot) (now : ℤ) : VoterSnapshot :=
  let p := computeStreakAndXp db₀ now
  let db₁ := routeVoterUpsert db₀ p now
  routeVoterUpsert (some db₁) p now

/-- Modelled from the spec: the additive-increment upsert the spec (and
`route.test.ts`, which asserts `update.xp = increment xpGain` and
`update.totalVotes = increment 1`) requires — counters are incremented on
the row state seen inside the transaction.  This code is absent from
`route.ts`. -/
def incrementVoterUpsert (existing : Option VoterSnapshot) (now : ℤ) : VoterSnapshot :=
  let p := computeStreakAndXp existing now
  match existing with
  | none => ⟨p.streakDays, some now, p.nextXp, p.nextTotalVotes⟩
  | some row => ⟨p.streakDays, some now, row.xp + p.xpGain, row.totalVotes + 1⟩

/-- Modelled from the spec: two concurrent votes under additive-increment
upserts, each transaction acting on the row state it observes. -/
def specTwoConcurrentVotes (db₀ : Option VoterSnapshot) (now : ℤ) : VoterSnapshot :=
  incrementVoterUpsert (some (incrementVoterUpsert db₀ now)) now

/-! ### Transaction retry: `src/lib/tx-retry.ts` and the vote route.

A transaction attempt either succeeds with a value or throws an error
carrying an optional Prisma error code; the sequence of outcomes the
datastore would produce is passed as `attempts`, and the per-attempt
`Math.random()` draws as `jitter` (each in `[0, 1)`). -/

/-- An error thrown by the datastore, with its optional `code` field. -/
structure TxError where
  code : Option String
deriving DecidableEq, Repr

/-- The `RETRYABLE_ERROR_CODE` from `tx-retry.ts`. -/
def RETRYABLE_ERROR_CODE : String := "P2034"

/-- The `isRetryableSerializationError` from `tx-retry.ts`. -/
def isRetryableSerializationError (e : TxError) : Bool :=
  e.code == some RETRYABLE_ERROR_CODE

/-- What a run of `withSerializableRetry` did: its outcome, how many
attempts ran, and the backoff delays slept between attempts. -/
structure RetryTrace (α : Type) where
  result : Except TxError α
  attemptsUsed : ℕ
  delays : List ℚ
deriving Repr

/-- The delay before retry number `attempt + 1`
(`tx-retry.ts` lines 55–57): `min(maxDelayMs, base·2^attempt + jitter)`
with `jitter = floor(random·base)` when `base > 0`. -/
def retryDelay (base maxDelay : ℚ) (attempt : ℕ) (draw : ℚ) : ℚ :=
  let exponential := base * 2 ^ attempt
  let jitter : ℚ := if 0 < base then (⌊draw * base⌋ : ℤ) else 0
  min maxDelay (exponential + jitter)

/-- The retry loop of `withSerializableRetry` (`tx-retry.ts` lines
45–60), with `retriesLeft = maxRetries - attempt`: rethrow when the error
is not retryable or the attempt budget is exhausted, otherwise sleep and
loop. -/
def goRetry {α : Type} (attempts : ℕ → Except TxError α) (jitter : ℕ → ℚ)
    (base maxDelay : ℚ) : ℕ → ℕ → RetryTrace α
  | k, retriesLeft =>
    match attempts k with
    | .ok v => ⟨.ok v, k + 1, []⟩
    | .error e =>
        if isRetryableSerializationError e then
          match retriesLeft with
          | 0 => ⟨.error e, k + 1, []⟩
          | r + 1 =>
              let d := retryDelay base maxDelay k (jitter k)
              let rest := goRetry attempts jitter base maxDelay (k + 1) r
              ⟨rest.result, rest.attemptsUsed, d :: rest.delays⟩
        else ⟨.error e, k + 1, []⟩

/-- The `withSerializableRetry` from `tx-retry.ts` with already-clamped
options (the source clamps `maxRetries` to `ℕ` and forces
`maxDelayMs ≥ baseDelayMs ≥ 0` before the loop). -/
def withSerializableRetry {α : Type} (attempts : ℕ → Except TxError α)
    (jitter : ℕ → ℚ) (maxRetries : ℕ) (base maxDelay : ℚ) : RetryTrace α :=
  goRetry attempts jitter base maxDelay 0 maxRetries

/-- How `POST /api/votes` actually runs its transaction
(`route.ts` line 122): a single `prisma.$transaction` call with no
isolation-level option and no retry wrapper — the first attempt's outcome
is the outcome. -/
def routeVoteTransaction {α : Type} (attempts : ℕ → Except TxError α) :
    Except TxError α :=
  attempts 0

/-- Rounding to 4 decimal places moves a value by at most half an ulp. -/
theorem round4_err (x : ℝ) : |round4 x - x| ≤ 1 / 20000 := by
  have h1 : ((⌊x * 10000 + 1 / 2⌋ : ℤ) : ℝ) ≤ x * 10000 + 1 / 2 :=
    Int.floor_le _
  have h2 : x * 10000 + 1 / 2 < (⌊x * 10000 + 1 / 2⌋ : ℤ) + 1 :=
    Int.lt_floor_add_one _
  rw [abs_le, round4]
  constructor <;> nlinarith

/-- Below the vote threshold the update leaves both ratings untouched. -/
theorem applyEloFromVotes_below (i : ApplyEloInput)
    (h : eloTotalVotes i < eloMinVotes i) :
    (applyEloFromVotes i).leftScore = i.leftScore ∧
      (applyEloFromVotes i).rightScore = i.rightScore ∧
      (applyEloFromVotes i).affectsScore = false := by
  simp only [eloTotalVotes, eloMinVotes, clampVotes] at h
  simp only [applyEloFromVotes, toFiniteScore, clampVotes, eloMinVotes]
  rw [if_pos h]
  exact ⟨rfl, rfl, rfl⟩

/-- At or above the vote threshold the update is flagged as scoring. -/
theorem applyEloFromVotes_met (i : ApplyEloInput)
    (h : eloMinVotes i ≤ eloTotalVotes i) :
    (applyEloFromVotes i).affectsScore = true := by
  have h' : ¬ (clampVotes i.votesLeft + clampVotes i.votesRight < max 1 i.minVotes) := by
    simp only [eloTotalVotes, eloMinVotes] at h
    exact not_lt.mpr h
  simp only [applyEloFromVotes, toFiniteScore, eloMinVotes]
  rw [if_neg h']

/-- A non-empty side is passed through `bundleSideList` unchanged. -/
theorem bundleSideList_of_ne_nil {l : List ℝ} (h : l ≠ []) :
    bundleSideList l = l := by
  have hmap : l.map toFiniteScore = l := List.map_id l
  simp only [bundleSideList, hmap]
  rw [if_neg (by simpa [List.isEmpty_iff] using h)]

/-- C1 (amended): when the clamped total vote count is below the effective
minimum-vote threshold, `applyEloFromVotes` returns both ratings unchanged
with `affectsScore = false`, and `applyEloFromVotesBundles` does the same
for every member rating provided each side's member list is non-empty (an
empty side is first replaced by the default list `[1500]`). -/
theorem elo_threshold_gating :
    (∀ i : ApplyEloInput, eloTotalVotes i < eloMinVotes i →
      (applyEloFromVotes i).leftScore = i.leftScore ∧
        (applyEloFromVotes i).rightScore = i.rightScore ∧
        (applyEloFromVotes i).affectsScore = false) ∧
    (∀ j : ApplyBundleEloInput,
      clampVotes j.votesLeft + clampVotes j.votesRight < max 1 j.minVotes →
      j.leftScores ≠ [] → j.rightScores ≠ [] →
      (applyEloFromVotesBundles j).leftScores = j.leftScores ∧
        (applyEloFromVotesBundles j).rightScores = j.rightScores ∧
        (applyEloFromVotesBundles j).affectsScore = false) := by
  refine ⟨fun i h => applyEloFromVotes_below i h, fun j h hL hR => ?_⟩
  have hteam : (bundleTeamUpdate j).affectsScore = false := by
    refine (applyEloFromVotes_below _ ?_).2.2
    simpa [bundleTeamUpdate, eloTotalVotes, eloMinVotes] using h
  simp only [applyEloFromVotesBundles]
  rw [if_pos hteam]
  exact ⟨bundleSideList_of_ne_nil hL, bundleSideList_of_ne_nil hR, hteam⟩

/-- C1 counterexample: the claim as stated fails for an empty member list.
With no votes (total `0 <` threshold `1`) the team update is gated off,
yet the returned left member list is the default `[1500]`, not the input
`[]`. -/
theorem elo_threshold_gating_cex :
    (applyEloFromVotesBundles ⟨[], [], 0, 0, 1⟩).affectsScore = false ∧
    (applyEloFromVotesBundles ⟨[], [], 0, 0, 1⟩).leftScores = [(1500 : ℝ)] ∧
    [(1500 : ℝ)] ≠ ([] : List ℝ) := by
  have hteam : (bundleTeamUpdate ⟨[], [], 0, 0, 1⟩).affectsScore = false := by
    refine (applyEloFromVotes_below _ ?_).2.2
    norm_num [bundleTeamUpdate, eloTotalVotes, eloMinVotes, clampVotes]
  refine ⟨?_, ?_, by simp⟩
  · simp only [applyEloFromVotesBundles]
    rw [if_pos hteam]
    exact hteam
  · simp only [applyEloFromVotesBundles]
    rw [if_pos hteam]
    simp [bundleSideList]

/-- C1 witness: concrete gated updates (single side `1` vote `< 5` needed;
bundle with two non-empty sides and `0` votes `< 1` needed). -/
theorem elo_threshold_gating_witness :
    (applyEloFromVotes ⟨1500, 1400, 1, 0, 5⟩).affectsScore = false ∧
    (applyEloFromVotesBundles ⟨[1500], [1400], 0, 0, 1⟩).leftScores = [(1500 : ℝ)] := by
  refine ⟨(elo_threshold_gating.1 ⟨1500, 1400, 1, 0, 5⟩ ?_).2.2,
          (elo_threshold_gating.2 ⟨[1500], [1400], 0, 0, 1⟩ ?_ ?_ ?_).1⟩
  · norm_num [eloTotalVotes, eloMinVotes, clampVotes]
  · norm_num [clampVotes]
  · simp
  · simp

/-- C2: whenever the vote threshold is met, the left and right rating
deltas of `applyEloFromVotes` cancel to within the `1/10000` tolerance
introduced by rounding each new rating to 4 decimal places. -/
theorem elo_zero_sum (i : ApplyEloInput) (h : eloMinVotes i ≤ eloTotalVotes i) :
    |((applyEloFromVotes i).leftScore - i.leftScore) +
      ((applyEloFromVotes i).rightScore - i.rightScore)| ≤ 1 / 10000 := by
  have hnot : ¬ (clampVotes i.votesLeft + clampVotes i.votesRight < max 1 i.minVotes) := by
    simpa [eloTotalVotes, eloMinVotes] using not_lt.mpr h
  have ht1 : (1 : ℚ) ≤ clampVotes i.votesLeft + clampVotes i.votesRight := by
    refine le_trans (le_max_left 1 i.minVotes) ?_
    simpa [eloTotalVotes, eloMinVotes] using h
  have ht0 : clampVotes i.votesLeft + clampVotes i.votesRight ≠ 0 := by
    intro hz
    rw [hz] at ht1
    exact absurd ht1 (by norm_num)
  simp only [applyEloFromVotes, toFiniteScore, eloMinVotes]
  rw [if_neg hnot]
  dsimp only
  set lv := clampVotes i.votesLeft with hlv
  set rv := clampVotes i.votesRight with hrv
  set eL : ℝ := 1 / (1 + (10 : ℝ) ^ ((i.rightScore - i.leftScore) / 400)) with heL
  set K : ℝ := 24 * min 2 (Real.sqrt (((lv + rv : ℚ) : ℝ) / 5)) with hK
  have hq : ((lv / (lv + rv) : ℚ) : ℝ) + ((rv / (lv + rv) : ℚ) : ℝ) = 1 := by
    have hq' : lv / (lv + rv) + rv / (lv + rv) = (1 : ℚ) := by
      field_simp
    exact_mod_cast hq'
  set u := i.leftScore + K * (((lv / (lv + rv) : ℚ) : ℝ) - eL) with hu
  set v := i.rightScore + K * (((rv / (lv + rv) : ℚ) : ℝ) - (1 - eL)) with hv
  have huv : u + v = i.leftScore + i.rightScore := by
    rw [hu, hv]
    linear_combination K * hq
  have e1 := round4_err u
  have e2 := round4_err v
  have hrw : round4 u - i.leftScore + (round4 v - i.rightScore)
      = (round4 u - u) + (round4 v - v) := by linear_combination huv
  rw [hrw]
  calc |(round4 u - u) + (round4 v - v)|
      ≤ |round4 u - u| + |round4 v - v| := abs_add _ _
    _ ≤ 1 / 20000 + 1 / 20000 := add_le_add e1 e2
    _ = 1 / 10000 := by norm_num

/-- C2 witness: the spec's concrete scenario (1500 vs 1500, votes 7–3,
threshold 1) satisfies the zero-sum bound. -/
theorem elo_zero_sum_witness :
    |((applyEloFromVotes ⟨1500, 1500, 7, 3, 1⟩).leftScore - 1500) +
      ((applyEloFromVotes ⟨1500, 1500, 7, 3, 1⟩).rightScore - 1500)| ≤ 1 / 10000 :=
  elo_zero_sum ⟨1500, 1500, 7, 3, 1⟩
    (by norm_num [eloMinVotes, eloTotalVotes, clampVotes])

/-- A logistic mass `10^(r/400)` is strictly positive. -/
theorem scoreToQ_pos (s : ℝ) : 0 < scoreToQ s :=
  Real.rpow_pos_of_pos (by norm_num) _

/-- The summed logistic mass of a non-empty rating list is positive. -/
theorem qSumList_pos (l : List ℝ) (hl : l ≠ []) :
    0 < (l.map scoreToQ).sum := by
  cases l with
  | nil => exact absurd rfl hl
  | cons a t =>
      have ht : 0 ≤ (t.map scoreToQ).sum := by
        refine List.sum_nonneg ?_
        intro x hx
        obtain ⟨s, _, rfl⟩ := List.mem_map.mp hx
        exact le_of_lt (scoreToQ_pos s)
      have := scoreToQ_pos a
      simp only [List.map_cons, List.sum_cons]
      linarith

/-- The `bundleSideList` never returns the empty list. -/
theorem bundleSideList_ne_nil (l : List ℝ) : bundleSideList l ≠ [] := by
  simp only [bundleSideList]
  by_cases h : (l.map toFiniteScore).isEmpty
  · rw [if_pos h]
    simp
  · rw [if_neg h]
    simpa [List.isEmpty_iff] using h

/-- Bound for the absolute value of a sum of pointwise-bounded terms. -/
theorem abs_sum_map_le {α : Type} (l : List α) (f : α → ℝ) (c : ℝ)
    (h : ∀ x ∈ l, |f x| ≤ c) : |(l.map f).sum| ≤ l.length * c := by
  induction l with
  | nil => simp
  | cons a t ih =>
      have ha := h a (List.mem_cons_self a t)
      have ht : |(t.map f).sum| ≤ t.length * c :=
        ih fun x hx => h x (List.mem_cons_of_mem a hx)
      simp only [List.map_cons, List.sum_cons, List.length_cons]
      calc |f a + (t.map f).sum| ≤ |f a| + |(t.map f).sum| := abs_add _ _
        _ ≤ c + t.length * c := add_le_add ha ht
        _ = (t.length + 1) * c := by ring
        _ = ((t.length + 1 : ℕ) : ℝ) * c := by push_cast; ring

/-- Proportional redistribution of a delta over a non-empty rating list
conserves the delta up to one half-ulp of rounding per member. -/
theorem redistribute_conserve (l : List ℝ) (D : ℝ) (hl : l ≠ []) :
    |((l.map fun s =>
        round4 (s + D * (scoreToQ s / (l.map scoreToQ).sum))).sum - l.sum) - D|
      ≤ l.length / 20000 := by
  set Q := (l.map scoreToQ).sum with hQdef
  have hQ0 : Q ≠ 0 := ne_of_gt (qSumList_pos l hl)
  have hfun : (fun s : ℝ => round4 (s + D * (scoreToQ s / Q)))
      = fun s : ℝ => (s + D * (scoreToQ s / Q)) +
          (round4 (s + D * (scoreToQ s / Q)) - (s + D * (scoreToQ s / Q))) := by
    funext s
    ring
  have hsplit : (l.map fun s => round4 (s + D * (scoreToQ s / Q))).sum
      = (l.map fun s => s + D * (scoreToQ s / Q)).sum +
        (l.map fun s =>
          round4 (s + D * (scoreToQ s / Q)) - (s + D * (scoreToQ s / Q))).sum := by
    rw [hfun, List.sum_map_add]
  have hmul : (fun s : ℝ => D * (scoreToQ s / Q)) = fun s : ℝ => (D / Q) * scoreToQ s := by
    funext s
    ring
  have hbase : (l.map fun s => s + D * (scoreToQ s / Q)).sum = l.sum + D := by
    rw [List.sum_map_add]
    congr 1
    · exact congrArg List.sum (List.map_id l)
    · rw [hmul, List.sum_map_mul_left, ← hQdef, div_mul_cancel₀ D hQ0]
  have herr : |(l.map fun s =>
      round4 (s + D * (scoreToQ s / Q)) - (s + D * (scoreToQ s / Q))).sum|
      ≤ l.length * (1 / 20000) := by
    refine abs_sum_map_le l _ _ ?_
    intro x _
    exact round4_err _
  have hrw : ((l.map fun s => round4 (s + D * (scoreToQ s / Q))).sum - l.sum) - D
      = (l.map fun s =>
          round4 (s + D * (scoreToQ s / Q)) - (s + D * (scoreToQ s / Q))).sum := by
    rw [hsplit, hbase]
    ring
  rw [hrw]
  calc |(l.map fun s =>
      round4 (s + D * (scoreToQ s / Q)) - (s + D * (scoreToQ s / Q))).sum|
      ≤ l.length * (1 / 20000) := herr
    _ = l.length / 20000 := by ring

/-- C4: when the threshold is met, each member of a side receives the
team delta scaled by its share `q/Σq` of the side's logistic mass, and the
per-member deltas on a side sum to that side's team-level delta within
half an ulp of 4-decimal rounding per member. -/
theorem elo_team_redistribution (i : ApplyBundleEloInput)
    (h : max 1 i.minVotes ≤ clampVotes i.votesLeft + clampVotes i.votesRight) :
    ((applyEloFromVotesBundles i).leftScores =
        (bundleSideList i.leftScores).map (fun s =>
          round4 (s + ((bundleTeamUpdate i).leftScore - bundleTeamScore i.leftScores) *
            (scoreToQ s / bundleQSum i.leftScores))) ∧
      |((applyEloFromVotesBundles i).leftScores.sum - (bundleSideList i.leftScores).sum) -
          ((bundleTeamUpdate i).leftScore - bundleTeamScore i.leftScores)|
        ≤ (bundleSideList i.leftScores).length / 20000) ∧
    ((applyEloFromVotesBundles i).rightScores =
        (bundleSideList i.rightScores).map (fun s =>
          round4 (s + ((bundleTeamUpdate i).rightScore - bundleTeamScore i.rightScores) *
            (scoreToQ s / bundleQSum i.rightScores))) ∧
      |((applyEloFromVotesBundles i).rightScores.sum - (bundleSideList i.rightScores).sum) -
          ((bundleTeamUpdate i).rightScore - bundleTeamScore i.rightScores)|
        ≤ (bundleSideList i.rightScores).length / 20000) := by
  have hteam : (bundleTeamUpdate i).affectsScore = true := by
    refine applyEloFromVotes_met _ ?_
    simpa [bundleTeamUpdate, eloTotalVotes, eloMinVotes] using h
  have hne : ¬ ((bundleTeamUpdate i).affectsScore = false) := by simp [hteam]
  simp only [applyEloFromVotesBundles]
  rw [if_neg hne]
  dsimp only
  simp only [List.zipWith_map_right, List.zipWith_same, bundleTeamScore, bundleQSum]
  exact ⟨⟨trivial, redistribute_conserve _ _ (bundleSideList_ne_nil _)⟩,
         ⟨trivial, redistribute_conserve _ _ (bundleSideList_ne_nil _)⟩⟩

/-- C4 witness: the team matchup from the repository's own test
(`[1500, 1520]` vs `[1510]`, votes 12–5) conserves the left team delta. -/
theorem elo_team_redistribution_witness :
    |((applyEloFromVotesBundles ⟨[1500, 1520], [1510], 12, 5, 1⟩).leftScores.sum -
        (bundleSideList [1500, 1520]).sum) -
        ((bundleTeamUpdate ⟨[1500, 1520], [1510], 12, 5, 1⟩).leftScore -
          bundleTeamScore [1500, 1520])|
      ≤ (bundleSideList [1500, 1520]).length / 20000 :=
  (elo_team_redistribution ⟨[1500, 1520], [1510], 12, 5, 1⟩
    (by norm_num [clampVotes])).1.2

/-- Membership in `dedupFirst` coincides with membership in the input. -/
theorem mem_dedupFirst {a : String} : ∀ {l : List String}, a ∈ dedupFirst l ↔ a ∈ l := by
  intro l
  induction l using dedupFirst.induct with
  | case1 => simp [dedupFirst]
  | case2 x xs ih =>
      rw [dedupFirst]
      by_cases hax : a = x
      · subst hax
        simp
      · simp only [List.mem_cons, ih, List.mem_filter]
        constructor
        · rintro (rfl | ⟨hmem, -⟩)
          · exact Or.inl rfl
          · exact Or.inr hmem
        · rintro (rfl | hmem)
          · exact Or.inl rfl
          · exact Or.inr ⟨hmem, by simpa using hax⟩

/-- The `dedupFirst` returns a duplicate-free list. -/
theorem nodup_dedupFirst : ∀ l : List String, (dedupFirst l).Nodup := by
  intro l
  induction l using dedupFirst.induct with
  | case1 => simp [dedupFirst]
  | case2 x xs ih =>
      rw [dedupFirst]
      refine List.nodup_cons.mpr ⟨?_, ih⟩
      intro hx
      have := List.mem_filter.mp (mem_dedupFirst.mp hx)
      simp at this

/-- The normalised member list depends only on which keys are present. -/
theorem toBundleKeyList_eq_of_mem_iff {l₁ l₂ : List String}
    (h : ∀ x, x ∈ l₁ ↔ x ∈ l₂) : toBundleKeyList l₁ = toBundleKeyList l₂ := by
  have hs₁ := List.sorted_insertionSort (α := String) (· ≤ ·)
    (dedupFirst ((l₁.map String.trim).filter (fun s => s != "")))
  have hs₂ := List.sorted_insertionSort (α := String) (· ≤ ·)
    (dedupFirst ((l₂.map String.trim).filter (fun s => s != "")))
  have hn₁ : (toBundleKeyList l₁).Nodup :=
    ((List.perm_insertionSort _ _).nodup_iff).mpr (nodup_dedupFirst _)
  have hn₂ : (toBundleKeyList l₂).Nodup :=
    ((List.perm_insertionSort _ _).nodup_iff).mpr (nodup_dedupFirst _)
  have hmem : ∀ x, x ∈ toBundleKeyList l₁ ↔ x ∈ toBundleKeyList l₂ := by
    intro x
    rw [toBundleKeyList, toBundleKeyList,
      (List.perm_insertionSort _ _).mem_iff, (List.perm_insertionSort _ _).mem_iff,
      mem_dedupFirst, mem_dedupFirst, List.mem_filter, List.mem_filter,
      List.mem_map, List.mem_map]
    constructor
    · rintro ⟨⟨y, hy, rfl⟩, hne⟩
      exact ⟨⟨y, (h y).mp hy, rfl⟩, hne⟩
    · rintro ⟨⟨y, hy, rfl⟩, hne⟩
      exact ⟨⟨y, (h y).mpr hy, rfl⟩, hne⟩
  refine List.eq_of_perm_of_sorted ?_ hs₁ hs₂
  refine List.perm_of_nodup_nodup_toFinset_eq hn₁ hn₂ ?_
  ext x
  simp only [List.mem_toFinset]
  exact hmem x

/-- C3: the canonical pair key is symmetric in its two bundles, and is
unchanged by any reordering or duplication of the members inside either
bundle (stated as: only the set of member keys matters). -/
theorem canonical_pair_key_stable (A A' B B' : List String)
    (hA : ∀ x, x ∈ A ↔ x ∈ A') (hB : ∀ x, x ∈ B ↔ x ∈ B') :
    canonicalPairKey A B = canonicalPairKey B A ∧
      canonicalPairKey A B = canonicalPairKey A' B' := by
  constructor
  · simp only [canonicalPairKey]
    rcases lt_trichotomy (toBundleKey A) (toBundleKey B) with h | h | h
    · rw [if_neg (not_lt.mpr (le_of_lt h)), if_pos h]
    · rw [h]
    · rw [if_pos h, if_neg (not_lt.mpr (le_of_lt h))]
  · have hA' : toBundleKey A = toBundleKey A' :=
      congrArg (String.intercalate " + ") (toBundleKeyList_eq_of_mem_iff hA)
    have hB' : toBundleKey B = toBundleKey B' :=
      congrArg (String.intercalate " + ") (toBundleKeyList_eq_of_mem_iff hB)
    simp only [canonicalPairKey, hA', hB']

/-- A run of tiers that all reject the midpoint is scanned past. -/
theorem tierScan_skip_all {mid : ℚ} :
    ∀ (l₁ l₂ : List GoldmarketTier) (i : ℕ),
      (∀ t ∈ l₁, ¬(t.tmin ≤ mid ∧ (mid : WithTop ℚ) < t.tmax)) →
      tierScan (l₁ ++ l₂) i mid = tierScan l₂ (i + l₁.length) mid := by
  intro l₁
  induction l₁ with
  | nil =>
      intro l₂ i _
      simp
  | cons t ts ih =>
      intro l₂ i h
      rw [List.cons_append, tierScan, if_neg (h t (List.mem_cons_self t ts)),
        ih l₂ (i + 1) (fun u hu => h u (List.mem_cons_of_mem t hu))]
      congr 1
      simp only [List.length_cons]
      omega

/-- C10: every midpoint strictly below the lowest tier minimum of 1000
falls through the whole scan and is assigned the last tier
`("3mx+", 10)` — the same bucket as midpoints at or above 3000000. -/
theorem tier_for_midx_fallback (mid : ℚ) :
    (mid < 1000 → tierForMidX mid = ("3mx+", 10)) ∧
    (3000000 ≤ mid → tierForMidX mid = ("3mx+", 10)) := by
  constructor
  · intro h
    have hmin : ∀ t ∈ GOLDMARKET_TIERS, (1000 : ℚ) ≤ t.tmin := by decide
    have hall : ∀ t ∈ GOLDMARKET_TIERS, ¬(t.tmin ≤ mid ∧ (mid : WithTop ℚ) < t.tmax) := by
      intro t ht hc
      have := hmin t ht
      linarith [hc.1]
    have hnone : tierScan GOLDMARKET_TIERS 0 mid = none := by
      have hs := tierScan_skip_all GOLDMARKET_TIERS [] 0 hall
      rw [List.append_nil] at hs
      rw [hs, tierScan]
    rw [tierForMidX, hnone]
    rfl
  · intro h
    have hsplit : GOLDMARKET_TIERS =
        GOLDMARKET_TIERS.dropLast ++ [⟨"3mx+", 3000000, ⊤⟩] := rfl
    have hmax : ∀ t ∈ GOLDMARKET_TIERS.dropLast,
        t.tmax ≤ ((3000000 : ℚ) : WithTop ℚ) := by decide
    have hfront : ∀ t ∈ GOLDMARKET_TIERS.dropLast,
        ¬(t.tmin ≤ mid ∧ (mid : WithTop ℚ) < t.tmax) := by
      intro t ht hc
      have hlt : (mid : WithTop ℚ) < ((3000000 : ℚ) : WithTop ℚ) :=
        lt_of_lt_of_le hc.2 (hmax t ht)
      rw [WithTop.coe_lt_coe] at hlt
      linarith
    have hscan : tierScan GOLDMARKET_TIERS 0 mid =
        tierScan [⟨"3mx+", 3000000, ⊤⟩] (0 + GOLDMARKET_TIERS.dropLast.length) mid := by
      calc tierScan GOLDMARKET_TIERS 0 mid
          = tierScan (GOLDMARKET_TIERS.dropLast ++ [⟨"3mx+", 3000000, ⊤⟩]) 0 mid := by
            rw [← hsplit]
        _ = tierScan [⟨"3mx+", 3000000, ⊤⟩] (0 + GOLDMARKET_TIERS.dropLast.length) mid :=
            tierScan_skip_all _ _ 0 hfront
    have hlast : tierScan [(⟨"3mx+", 3000000, ⊤⟩ : GoldmarketTier)]
        (0 + GOLDMARKET_TIERS.dropLast.length) mid = some ("3mx+", 10) := by
      rw [tierScan, if_pos ⟨h, WithTop.coe_lt_top mid⟩]
      rfl
    rw [tierForMidX, hscan, hlast]

/-- C10 witness: midpoint `0` (below every tier minimum) and midpoint
`3000000` land in the same final bucket. -/
theorem tier_for_midx_fallback_witness :
    tierForMidX 0 = ("3mx+", 10) ∧ tierForMidX 3000000 = ("3mx+", 10) :=
  ⟨(tier_for_midx_fallback 0).1 (by norm_num),
   (tier_for_midx_fallback 3000000).2 (by norm_num)⟩

/-- C8: the weighted bucket choice returns `none` exactly when both row
counts are zero, and whenever exactly one count is zero it returns the
other bucket, so an empty bucket is never chosen. -/
theorem pick_weighted_bucket_gate (f n : ℕ) (w r : ℚ) :
    (pickWeightedBucket f n w r = none ↔ f = 0 ∧ n = 0) ∧
    (f = 0 → n ≠ 0 → pickWeightedBucket f n w r = some .normal) ∧
    (n = 0 → f ≠ 0 → pickWeightedBucket f n w r = some .featured) := by
  have hf : max 0 (ratTrunc (f : ℚ)) = (f : ℤ) := by
    rw [ratTrunc, if_neg (not_lt.mpr (by positivity)), Int.floor_natCast]
    exact max_eq_right (Int.natCast_nonneg f)
  have hn : max 0 (ratTrunc (n : ℚ)) = (n : ℤ) := by
    rw [ratTrunc, if_neg (not_lt.mpr (by positivity)), Int.floor_natCast]
    exact max_eq_right (Int.natCast_nonneg n)
  simp only [pickWeightedBucket, hf, hn]
  refine ⟨⟨?_, ?_⟩, ?_, ?_⟩
  · intro h
    by_cases h1 : (f : ℤ) = 0 ∧ (n : ℤ) = 0
    · exact ⟨by exact_mod_cast h1.1, by exact_mod_cast h1.2⟩
    · exfalso
      rw [if_neg h1] at h
      by_cases h2 : (n : ℤ) = 0
      · rw [if_pos h2] at h
        exact Option.noConfusion h
      · rw [if_neg h2] at h
        by_cases h3 : (f : ℤ) = 0
        · rw [if_pos h3] at h
          exact Option.noConfusion h
        · rw [if_neg h3] at h
          split_ifs at h
  · rintro ⟨rfl, rfl⟩
    rw [if_pos ⟨by norm_num, by norm_num⟩]
  · intro hf0 hn0
    have hni : (n : ℤ) ≠ 0 := by exact_mod_cast hn0
    have hfi : (f : ℤ) = 0 := by exact_mod_cast hf0
    rw [if_neg (fun hc => hni hc.2), if_neg hni, if_pos hfi]
  · intro hn0 hf0
    have hfi : (f : ℤ) ≠ 0 := by exact_mod_cast hf0
    have hni : (n : ℤ) = 0 := by exact_mod_cast hn0
    rw [if_neg (fun hc => hfi hc.1), if_pos hni]

/-- C8 witness: one empty bucket falls back to the populated one, and two
empty buckets yield the unavailable signal. -/
theorem pick_weighted_bucket_gate_witness :
    pickWeightedBucket 0 4 2 (1 / 10) = some .normal ∧
      pickWeightedBucket 3 0 2 (4 / 5) = some .featured ∧
      pickWeightedBucket 0 0 2 (1 / 5) = none :=
  ⟨(pick_weighted_bucket_gate 0 4 2 (1 / 10)).2.1 rfl (by norm_num),
   (pick_weighted_bucket_gate 3 0 2 (4 / 5)).2.2 rfl (by norm_num),
   (pick_weighted_bucket_gate 0 0 2 (1 / 5)).1.mpr ⟨rfl, rfl⟩⟩

/-- The streak branch of `computeStreakAndXp` for a voter with a prior
vote, as a conditional on the last vote's day. -/
theorem computeStreakAndXp_streak_some (v : VoterSnapshot) (nowDay last : ℤ)
    (hlv : v.lastVotedAt = some last) :
    (computeStreakAndXp (some v) nowDay).streakDays =
      if last = nowDay then max 1 v.streakDays
      else if last = nowDay - 1 then max 1 (v.streakDays + 1)
      else 1 := by
  simp only [computeStreakAndXp, hlv]

/-- The XP gain is always `10 + min(streak, 7)` of the new streak. -/
theorem computeStreakAndXp_xpGain (voter : Option VoterSnapshot) (nowDay : ℤ) :
    (computeStreakAndXp voter nowDay).xpGain =
      10 + min (computeStreakAndXp voter nowDay).streakDays 7 := rfl

/-- C5: voter progression — the streak increments by one exactly when the
last vote was on the previous UTC day, stays put on a same-day vote,
resets to 1 on any larger gap or with no prior vote, and the XP gain is
`10 + min(streak, 7)` of the resulting streak.  Stored snapshots always
have `streakDays ≥ 1` (every value this function writes back is `≥ 1`). -/
theorem compute_streak_and_xp_spec (nowDay : ℤ) :
    ((computeStreakAndXp none nowDay).streakDays = 1 ∧
      (computeStreakAndXp none nowDay).xpGain = 11) ∧
    (∀ v : VoterSnapshot, 1 ≤ v.streakDays →
      ((v.lastVotedAt = some (nowDay - 1) →
          (computeStreakAndXp (some v) nowDay).streakDays = v.streakDays + 1) ∧
        (v.lastVotedAt = some nowDay →
          (computeStreakAndXp (some v) nowDay).streakDays = v.streakDays) ∧
        ((∀ d, v.lastVotedAt = some d → d ≠ nowDay ∧ d ≠ nowDay - 1) →
          (computeStreakAndXp (some v) nowDay).streakDays = 1) ∧
        ((computeStreakAndXp (some v) nowDay).streakDays = v.streakDays + 1 ↔
          v.lastVotedAt = some (nowDay - 1)) ∧
        (computeStreakAndXp (some v) nowDay).xpGain =
          10 + min (computeStreakAndXp (some v) nowDay).streakDays 7)) ∧
    (∀ (voter : Option VoterSnapshot) (d : ℤ),
      1 ≤ (computeStreakAndXp voter d).streakDays) := by
  have hne : nowDay ≠ nowDay - 1 := by omega
  have hinv : ∀ (voter : Option VoterSnapshot) (d : ℤ),
      1 ≤ (computeStreakAndXp voter d).streakDays := by
    intro voter d
    cases voter with
    | none => norm_num [computeStreakAndXp]
    | some v =>
        rcases hl : v.lastVotedAt with _ | last
        · simp [computeStreakAndXp, hl]
        · simp only [computeStreakAndXp, hl]
          split_ifs
          · exact le_max_left _ _
          · exact le_max_left _ _
          · exact le_refl 1
  refine ⟨⟨rfl, rfl⟩, ?_, hinv⟩
  intro v hs
  have hmax1 : max (1 : ℤ) v.streakDays = v.streakDays := max_eq_right hs
  have hmax2 : max (1 : ℤ) (v.streakDays + 1) = v.streakDays + 1 :=
    max_eq_right (by omega)
  rcases hlv : v.lastVotedAt with _ | last
  · have hstreak : (computeStreakAndXp (some v) nowDay).streakDays = 1 := by
      simp only [computeStreakAndXp, hlv]
    refine ⟨?_, ?_, fun _ => hstreak, ?_, computeStreakAndXp_xpGain _ _⟩
    · intro hcontra
      exact Option.noConfusion hcontra
    · intro hcontra
      exact Option.noConfusion hcontra
    · constructor
      · intro h1
        rw [hstreak] at h1
        omega
      · intro hcontra
        exact Option.noConfusion hcontra
  · have hchar := computeStreakAndXp_streak_some v nowDay last hlv
    by_cases h1 : last = nowDay
    · subst h1
      rw [if_pos rfl, hmax1] at hchar
      refine ⟨?_, fun _ => hchar, ?_, ?_, computeStreakAndXp_xpGain _ _⟩
      · intro hcontra
        injection hcontra with h'
        omega
      · intro hall
        exact absurd rfl (hall last rfl).1
      · rw [hchar]
        constructor
        · intro h'
          omega
        · intro hcontra
          injection hcontra with h'
          omega
    · by_cases h2 : last = nowDay - 1
      · subst h2
        rw [if_neg h1, if_pos rfl, hmax2] at hchar
        refine ⟨fun _ => hchar, ?_, ?_, ⟨fun _ => rfl, fun _ => hchar⟩,
          computeStreakAndXp_xpGain _ _⟩
        · intro hcontra
          injection hcontra with h'
          omega
        · intro hall
          exact absurd rfl (hall _ rfl).2
      · rw [if_neg h1, if_neg h2] at hchar
        refine ⟨?_, ?_, fun _ => hchar, ?_, computeStreakAndXp_xpGain _ _⟩
        · intro hcontra
          injection hcontra with h'
          exact absurd h' h2
        · intro hcontra
          injection hcontra with h'
          exact absurd h' h1
        · rw [hchar]
          constructor
          · intro h'
            omega
          · intro hcontra
            injection hcontra with h'
            exact absurd h' h2

/-- C5 witness: the spec's concrete scenario — `streakDays = 4`, last
vote yesterday — yields streak `5` and XP gain `15`; a fresh voter gains
`11`. -/
theorem compute_streak_and_xp_spec_witness :
    (computeStreakAndXp (some ⟨4, some 99, 200, 17⟩) 100).streakDays = 5 ∧
      (computeStreakAndXp (some ⟨4, some 99, 200, 17⟩) 100).xpGain = 15 ∧
      (computeStreakAndXp none 100).xpGain = 11 := by
  have h :=
    ((compute_streak_and_xp_spec 100).2.1 ⟨4, some 99, 200, 17⟩ (by norm_num)).1 rfl
  refine ⟨?_, by decide, ((compute_streak_and_xp_spec 100).1).2⟩
  rw [h]
  decide

/-- C6: the route's voter upsert writes absolute values computed from a
pre-transaction read, so two concurrent votes by a fresh visitor leave
`xp = 11` and `totalVotes = 1` — one increment is lost — while the
spec's additive-increment upsert accumulates `xp = 22`, `totalVotes = 2`,
the sum of the individual increments. -/
theorem vote_route_lost_update :
    (routeTwoConcurrentVotes none 100).xp = 11 ∧
      (routeTwoConcurrentVotes none 100).totalVotes = 1 ∧
      (specTwoConcurrentVotes none 100).xp = 22 ∧
      (specTwoConcurrentVotes none 100).totalVotes = 2 ∧
      (computeStreakAndXp none 100).xpGain + (computeStreakAndXp none 100).xpGain ≠
        (routeTwoConcurrentVotes none 100).xp := by
  decide

/-- C7: the retry helper in `tx-retry.ts` does retry a `P2034`
serialization conflict with exponential backoff and aborts immediately on
any other error — but the vote route never calls it: a single `P2034` on
the first (and only) `prisma.$transaction` attempt surfaces as the final
outcome even though one retry would have succeeded. -/
theorem vote_route_no_retry :
    routeVoteTransaction
        (fun k => if k = 0 then Except.error ⟨some "P2034"⟩ else Except.ok (42 : ℕ)) =
      Except.error ⟨some "P2034"⟩ ∧
    (withSerializableRetry
        (fun k => if k = 0 then Except.error ⟨some "P2034"⟩ else Except.ok (42 : ℕ))
        (fun _ => 0) 3 25 250).result = Except.ok 42 ∧
    (withSerializableRetry
        (fun k => if k = 0 then Except.error ⟨some "P2034"⟩ else Except.ok (42 : ℕ))
        (fun _ => 0) 3 25 250).attemptsUsed = 2 ∧
    (withSerializableRetry
        (fun k => if k = 0 then Except.error ⟨some "P2034"⟩ else Except.ok (42 : ℕ))
        (fun _ => 0) 3 25 250).delays = [25] ∧
    (∀ e : TxError, isRetryableSerializationError e = false →
      ∀ (jitter : ℕ → ℚ) (maxRetries : ℕ) (base maxDelay : ℚ),
        withSerializableRetry (fun _ => (Except.error e : Except TxError ℕ))
            jitter maxRetries base maxDelay =
          ⟨Except.error e, 1, []⟩) := by
  refine ⟨rfl, ?_, ?_, ?_, ?_⟩
  · simp [withSerializableRetry, goRetry, isRetryableSerializationError,
      RETRYABLE_ERROR_CODE]
  · simp [withSerializableRetry, goRetry, isRetryableSerializationError,
      RETRYABLE_ERROR_CODE]
  · simp only [withSerializableRetry, goRetry, isRetryableSerializationError,
      RETRYABLE_ERROR_CODE]
    norm_num [retryDelay]
  · intro e he jitter maxRetries base maxDelay
    simp [withSerializableRetry, goRetry, he]

/-- C7 witness: a non-retryable error code aborts after one attempt with
no backoff sleeps. -/
theorem vote_route_no_retry_witness :
    withSerializableRetry
        (fun _ => (Except.error ⟨some "P1000"⟩ : Except TxError ℕ))
        (fun _ => 0) 3 25 250 =
      ⟨Except.error ⟨some "P1000"⟩, 1, []⟩ :=
  vote_route_no_retry.2.2.2.2 ⟨some "P1000"⟩ (by decide) (fun _ => 0) 3 25 250

/-- A token that `needsUnit` lexed to an empty unit with a non-negative
amount, and re-parsing it with any fallback multiplier succeeds with that
multiplier applied. -/
theorem parseRateToken_needsUnit_shape {p : String}
    (h : (parseRateToken p none).needsUnit = true) :
    ∃ a : ℚ, lexRate (normalizeRateToken p) = some (a, "") ∧
      parseRateToken p none = ⟨false, none, none, true, none⟩ ∧
      ∀ m : ℚ, parseRateToken p (some m) = ⟨true, some (a * m), some m, false, none⟩ := by
  rcases hlex : lexRate (normalizeRateToken p) with _ | ⟨a, u⟩
  · simp only [parseRateToken, hlex] at h
    exact Bool.noConfusion h
  · simp only [parseRateToken, hlex] at h
    by_cases ha : a < 0
    · rw [if_pos ha] at h
      simp at h
    · rw [if_neg ha] at h
      by_cases hu : u = ""
      · subst hu
        refine ⟨a, rfl, ?_, ?_⟩
        · simp only [parseRateToken, hlex]
          rw [if_neg ha]
          simp
        · intro m
          simp only [parseRateToken, hlex]
          rw [if_neg ha]
          simp
      · rw [if_neg hu] at h
        rcases hlk : List.lookup u RATE_MULTIPLIERS with _ | m
        · rw [hlk] at h
          simp at h
        · rw [hlk] at h
          simp at h

/-- A successful token parse has the `ok` record shape. -/
theorem parseRateToken_ok_shape {p : String} {fb : Option ℚ}
    (h : (parseRateToken p fb).ok = true) :
    ∃ v m : ℚ, parseRateToken p fb = ⟨true, some v, some m, false, none⟩ := by
  rcases hlex : lexRate (normalizeRateToken p) with _ | ⟨a, u⟩
  · simp only [parseRateToken, hlex] at h
    exact Bool.noConfusion h
  · simp only [parseRateToken, hlex] at h ⊢
    by_cases ha : a < 0
    · rw [if_pos ha] at h
      simp at h
    · rw [if_neg ha] at h ⊢
      by_cases hu : u = ""
      · rw [if_pos hu] at h ⊢
        rcases fb with _ | m
        · simp at h
        · exact ⟨a * m, m, rfl⟩
      · rw [if_neg hu] at h ⊢
        rcases hlk : List.lookup u RATE_MULTIPLIERS with _ | m
        · rw [hlk] at h
          simp at h
        · rw [hlk] at h
          exact ⟨a * m, m, rfl⟩

/-- A single-bound range parses with `min = max = mid`. -/
theorem parseSeedRange_single (p : String)
    (hok : (parseSeedRangeParts [p]).ok = true) :
    (parseSeedRangeParts [p]).minX = (parseSeedRangeParts [p]).maxX ∧
      (parseSeedRangeParts [p]).minX = (parseSeedRangeParts [p]).midX := by
  by_cases ho : (parseRateToken p (some 1)).ok = true
  · obtain ⟨v, m, hsh⟩ := parseRateToken_ok_shape ho
    simp [parseSeedRangeParts, hsh]
  · have ho' : (parseRateToken p (some 1)).ok = false := by
      simpa using ho
    simp only [parseSeedRangeParts, ho'] at hok
    simp [seedRangeErr] at hok

/-- When only the left side lacks a unit, it inherits the right side's
multiplier: the parsed minimum is the left amount times that multiplier. -/
theorem parseSeedRange_left_inherits (p₁ p₂ : String) (m₂ : ℚ)
    (h₁ : (parseRateToken p₁ none).needsUnit = true)
    (h₂ok : (parseRateToken p₂ none).ok = true)
    (h₂m : (parseRateToken p₂ none).multiplier = some m₂) :
    ∃ a₁ : ℚ, lexRate (normalizeRateToken p₁) = some (a₁, "") ∧
      ((parseSeedRangeParts [p₁, p₂]).ok = true →
        (parseSeedRangeParts [p₁, p₂]).minX = some (a₁ * m₂)) := by
  obtain ⟨a₁, hlex₁, hL, hLm⟩ := parseRateToken_needsUnit_shape h₁
  obtain ⟨v₂, m₂', hR⟩ := parseRateToken_ok_shape h₂ok
  have hm : m₂' = m₂ := by
    rw [hR] at h₂m
    simpa using h₂m
  subst hm
  refine ⟨a₁, hlex₁, ?_⟩
  intro hok
  simp only [parseSeedRangeParts, hL, hR, hLm m₂'] at hok ⊢
  simp at hok ⊢
  by_cases hgt : v₂ < a₁ * m₂'
  · rw [if_pos hgt] at hok
    simp [seedRangeErr] at hok
  · rw [if_neg hgt] at hok ⊢

/-- When only the right side lacks a unit, it inherits the left side's
multiplier: the parsed maximum is the right amount times that multiplier. -/
theorem parseSeedRange_right_inherits (p₁ p₂ : String) (m₁ : ℚ)
    (h₁ok : (parseRateToken p₁ none).ok = true)
    (h₁m : (parseRateToken p₁ none).multiplier = some m₁)
    (h₂ : (parseRateToken p₂ none).needsUnit = true) :
    ∃ a₂ : ℚ, lexRate (normalizeRateToken p₂) = some (a₂, "") ∧
      ((parseSeedRangeParts [p₁, p₂]).ok = true →
        (parseSeedRangeParts [p₁, p₂]).maxX = some (a₂ * m₁)) := by
  obtain ⟨a₂, hlex₂, hR, hRm⟩ := parseRateToken_needsUnit_shape h₂
  obtain ⟨v₁, m₁', hL⟩ := parseRateToken_ok_shape h₁ok
  have hm : m₁' = m₁ := by
    rw [hL] at h₁m
    simpa using h₁m
  subst hm
  refine ⟨a₂, hlex₂, ?_⟩
  intro hok
  simp only [parseSeedRangeParts, hL, hR, hRm m₁'] at hok ⊢
  simp [hRm] at hok ⊢
  by_cases hgt : a₂ * m₁' < v₁
  · rw [if_pos hgt] at hok
    simp [seedRangeErr] at hok
  · rw [if_neg hgt] at hok ⊢

/-- When both sides lack a unit, both default to multiplier 1. -/
theorem parseSeedRange_both_default (p₁ p₂ : String)
    (h₁ : (parseRateToken p₁ none).needsUnit = true)
    (h₂ : (parseRateToken p₂ none).needsUnit = true) :
    ∃ a₁ a₂ : ℚ, lexRate (normalizeRateToken p₁) = some (a₁, "") ∧
      lexRate (normalizeRateToken p₂) = some (a₂, "") ∧
      ((parseSeedRangeParts [p₁, p₂]).ok = true →
        (parseSeedRangeParts [p₁, p₂]).minX = some (a₁ * 1) ∧
          (parseSeedRangeParts [p₁, p₂]).maxX = some (a₂ * 1)) := by
  obtain ⟨a₁, hlex₁, hL, hLm⟩ := parseRateToken_needsUnit_shape h₁
  obtain ⟨a₂, hlex₂, hR, hRm⟩ := parseRateToken_needsUnit_shape h₂
  refine ⟨a₁, a₂, hlex₁, hlex₂, ?_⟩
  intro hok
  simp only [parseSeedRangeParts, hL, hR, hLm 1, hRm 1] at hok ⊢
  simp at hok ⊢
  by_cases hgt : a₂ < a₁
  · rw [if_pos hgt] at hok
    simp [seedRangeErr] at hok
  · rw [if_neg hgt] at hok ⊢
    exact ⟨rfl, rfl⟩

/-- C9: the seed-range grammar — a single bound is `min = max` (`= mid`);
in a two-sided range a side that omits its unit inherits the other
side's multiplier; and when both sides omit the unit both default to
multiplier 1. -/
theorem parse_seed_range_units :
    (∀ p : String, (parseSeedRangeParts [p]).ok = true →
        (parseSeedRangeParts [p]).minX = (parseSeedRangeParts [p]).maxX ∧
          (parseSeedRangeParts [p]).minX = (parseSeedRangeParts [p]).midX) ∧
    (∀ (p₁ p₂ : String) (m₂ : ℚ),
      (parseRateToken p₁ none).needsUnit = true →
      (parseRateToken p₂ none).ok = true →
      (parseRateToken p₂ none).multiplier = some m₂ →
      ∃ a₁ : ℚ, lexRate (normalizeRateToken p₁) = some (a₁, "") ∧
        ((parseSeedRangeParts [p₁, p₂]).ok = true →
          (parseSeedRangeParts [p₁, p₂]).minX = some (a₁ * m₂))) ∧
    (∀ (p₁ p₂ : String) (m₁ : ℚ),
      (parseRateToken p₁ none).ok = true →
      (parseRateToken p₁ none).multiplier = some m₁ →
      (parseRateToken p₂ none).needsUnit = true →
      ∃ a₂ : ℚ, lexRate (normalizeRateToken p₂) = some (a₂, "") ∧
        ((parseSeedRangeParts [p₁, p₂]).ok = true →
          (parseSeedRangeParts [p₁, p₂]).maxX = some (a₂ * m₁))) ∧
    (∀ p₁ p₂ : String,
      (parseRateToken p₁ none).needsUnit = true →
      (parseRateToken p₂ none).needsUnit = true →
      ∃ a₁ a₂ : ℚ, lexRate (normalizeRateToken p₁) = some (a₁, "") ∧
        lexRate (normalizeRateToken p₂) = some (a₂, "") ∧
        ((parseSeedRangeParts [p₁, p₂]).ok = true →
          (parseSeedRangeParts [p₁, p₂]).minX = some (a₁ * 1) ∧
            (parseSeedRangeParts [p₁, p₂]).maxX = some (a₂ * 1))) :=
  ⟨parseSeedRange_single, parseSeedRange_left_inherits,
   parseSeedRange_right_inherits, parseSeedRange_both_default⟩

/-- C9 witness: `"3mx"` is a valid single bound with `min = max`, and in
`"200-300k"` the unitless left side inherits the right side's `k`
multiplier (1000). -/
theorem parse_seed_range_units_witness :
    ((parseSeedRangeParts ["3mx"]).minX = (parseSeedRangeParts ["3mx"]).maxX) ∧
    (∃ a₁ : ℚ, lexRate (normalizeRateToken "200") = some (a₁, "") ∧
      ((parseSeedRangeParts ["200", "300k"]).ok = true →
        (parseSeedRangeParts ["200", "300k"]).minX = some (a₁ * 1000))) :=
  ⟨(parse_seed_range_units.1 "3mx" (by decide)).1,
   parse_seed_range_units.2.1 "200" "300k" 1000 (by decide) (by decide) (by decide)⟩

/-- C3 witness: a concrete reordered and duplicated pair of bundles. -/
theorem canonical_pair_key_stable_witness :
    canonicalPairKey ["GoldenFoo|M", "GoldenBar|F"] ["GoldenBaz|?"] =
        canonicalPairKey ["GoldenBaz|?"] ["GoldenFoo|M", "GoldenBar|F"] ∧
      canonicalPairKey ["GoldenFoo|M", "GoldenBar|F"] ["GoldenBaz|?"] =
        canonicalPairKey ["GoldenBar|F", "GoldenFoo|M", "GoldenBar|F"] ["GoldenBaz|?"] :=
  canonical_pair_key_stable _ _ _ _
    (by
      intro x
      simp only [List.mem_cons, List.not_mem_nil, or_false]
      tauto)
    (fun _ => Iff.rfl)

end Tppcnomics
